import Mathlib

/-!
Verification of the skills discovery pipeline
(crates/agent/src/skills.rs): frontmatter parsing, metadata
validation, traversal-safe path resolution, directory discovery in the
synchronous and asynchronous modes, layered merging, and prompt
formatting.

Rust strings are modelled as lists of Unicode scalar values
(`List Char`); the Rust `str::len` (UTF-8 byte count) is `byteLenL`,
while the character count is `List.length`.  Filesystem paths are
modelled as lists of components (`List Str`).  External collaborators
(the filesystem, the YAML decoder, canonicalization) are parameters of
the embedded functions.
-/

set_option maxRecDepth 16384

/-- Model of Rust string slices: a list of Unicode scalar values. -/
abbrev Str := List Char

/-- Rust `str::len`: the length of the UTF-8 encoding in bytes. -/
def byteLenL (s : Str) : Nat := (s.map Char.utf8Size).sum

/-- Bool test that `pre` is a leading run of `l` (componentwise list
match, used both for string matching and for Rust `Path::starts_with`). -/
def leadsWith : List Char → List Char → Bool
  | [], _ => true
  | _ :: _, [] => false
  | a :: as, b :: bs => a = b && leadsWith as bs

/-- Componentwise path version of `leadsWith` (Rust `Path::starts_with`). -/
def leadsWithP : List Str → List Str → Bool
  | [], _ => true
  | _ :: _, [] => false
  | a :: as, b :: bs => a = b && leadsWithP as bs

/-- Rust `str::find(needle)`: index (in scalar values) of the first
occurrence of `needle` in `hay`.  For an ASCII needle this coincides
with the byte offset up to re-indexing, since a byte-level match of an
ASCII pattern always starts at a character boundary. -/
def findSub (needle : Str) : Str → Option Nat
  | [] => if leadsWith needle [] then some 0 else none
  | c :: rest =>
    if leadsWith needle (c :: rest) then some 0
    else (findSub needle rest).map (· + 1)

/-- Rust `str::contains(needle)`. -/
def containsSub (needle hay : Str) : Bool := (findSub needle hay).isSome

/-- Rust `str::trim_start` (leading whitespace removed). -/
def trimStartL (s : Str) : Str := s.dropWhile Char.isWhitespace

/-- Rust `str::trim` (leading and trailing whitespace removed). -/
def trimL (s : Str) : Str := ((trimStartL s).reverse.dropWhile Char.isWhitespace).reverse

/-- Split a list of characters on a separator character. -/
def splitOnChar (sep : Char) : Str → List Str
  | [] => [[]]
  | c :: rest =>
    if c = sep then [] :: splitOnChar sep rest
    else
      match splitOnChar sep rest with
      | [] => [[c]]
      | s :: ss => (c :: s) :: ss

/-- Rust `&s[..n]` on a string with at least `n` bytes: the characters
making up the first `n` bytes of the UTF-8 encoding, or `none` when `n`
does not fall on a character boundary (in Rust this slicing panics). -/
def takeBytes : Nat → Str → Option Str
  | 0, _ => some []
  | _ + 1, [] => none
  | n + 1, c :: rest =>
    if c.utf8Size ≤ n + 1 then (takeBytes (n + 1 - c.utf8Size) rest).map (c :: ·)
    else none

/-- Metadata extracted from the YAML frontmatter of a skill
(struct `SkillMetadata`, skills.rs lines 21-36).  The open `metadata`
bag is an association list. -/
structure SkillMetadata where
  name : Str
  description : Str
  license : Option Str
  compatibility : Option Str
  metadata : List (Str × Str)
  allowed_tools : Option Str
deriving DecidableEq, Repr

/-- The first violated invariant reported by `SkillMetadata::validate`
(the typed form of its `anyhow` error messages). -/
inductive ValidationError where
  | nameEmpty
  | nameTooLong (len : Nat)
  | nameInvalidChars (name : Str)
  | descriptionTooLong (len : Nat)
deriving DecidableEq, Repr

/-- `SkillMetadata::validate` (skills.rs lines 40-67).  Note that the
Rust code measures both lengths with `str::len`, i.e. in UTF-8 bytes. -/
def SkillMetadata.validate (m : SkillMetadata) : Except ValidationError Unit :=
  if m.name.isEmpty then .error .nameEmpty
  else if byteLenL m.name > 64 then .error (.nameTooLong (byteLenL m.name))
  else if !(m.name.all fun c => c.isLower || c.isDigit || c = '-') then
    .error (.nameInvalidChars m.name)
  else if byteLenL m.description > 1024 then
    .error (.descriptionTooLong (byteLenL m.description))
  else .ok ()

/-- A discovered skill (struct `Skill`, skills.rs lines 71-79), with its
directory path as a list of components. -/
structure Skill where
  metadata : SkillMetadata
  body : Str
  path : List Str
deriving DecidableEq, Repr

/-- Errors of `parse_skill_file`, in the taxonomy of the design
(malformed document, decoder failure, validation failure). -/
inductive ParseError where
  | malformedDocument (msg : Str)
  | metadataParseError (msg : Str)
  | validationError (e : ValidationError)
deriving DecidableEq, Repr

/-- A YAML decoder for `SkillMetadata`: the external structured-data
decoder consumed by the parser (`serde_yaml::from_str`), abstracted as a
parameter. -/
abbrev YamlDecoder := Str → Except Str SkillMetadata

/-- `parse_skill_file` (skills.rs lines 118-145), parameterized over the
external YAML decoder.  Byte offsets of the source become scalar-value
offsets; this is faithful because the delimiter is ASCII, so its match
offsets always sit on character boundaries. -/
def parse_skill_file (dec : YamlDecoder) (content : Str) : Except ParseError (SkillMetadata × Str) :=
  let content := trimStartL content
  if !(leadsWith ('-' :: '-' :: '-' :: []) content) then
    .error (.malformedDocument ("SKILL.md must start with YAML frontmatter (---)".data))
  else
    match findSub ('-' :: '-' :: '-' :: []) (content.drop 3) with
    | none => .error (.malformedDocument ("YAML frontmatter not properly closed with ---".data))
    | some endIdx =>
      let yaml_part := trimL ((content.drop 3).take endIdx)
      let body := trimStartL (content.drop (3 + endIdx + 3))
      match dec yaml_part with
      | .error e => .error (.metadataParseError e)
      | .ok metadata =>
        match metadata.validate with
        | .error e => .error (.validationError e)
        | .ok _ => .ok (metadata, body)

/-- One `key: value` line of a flat YAML mapping: key and value are the
trimmed texts on the two sides of the first colon. -/
def parseYamlLine (l : Str) : Option (Str × Str) :=
  match findSub (':' :: []) l with
  | none => none
  | some i => some (trimL (l.take i), trimL (l.drop (i + 1)))

/-- First value bound to `k` in an association list of strings. -/
def lookupKey (pairs : List (Str × Str)) (k : Str) : Option Str :=
  match pairs with
  | [] => none
  | (k', v) :: rest => if k' = k then some v else lookupKey rest k

/-- Model of the external YAML decoder (`serde_yaml::from_str`) on the
flat `key: value` documents used by skill files: one mapping entry per
line, unknown keys ignored, `name` and `description` required, the
other fields optional with the `metadata` bag defaulting to empty. -/
def simpleYamlDecode : YamlDecoder := fun yaml =>
  let pairs := (splitOnChar '\n' yaml).filterMap parseYamlLine
  match lookupKey pairs ("name".data), lookupKey pairs ("description".data) with
  | some n, some d =>
    .ok { name := n, description := d,
          license := lookupKey pairs ("license".data),
          compatibility := lookupKey pairs ("compatibility".data),
          metadata := [],
          allowed_tools := lookupKey pairs ("allowed_tools".data) }
  | _, _ => .error ("missing required field".data)

/-- Rust `Path::components` of a relative string path: split on the
separator and drop empty components. -/
def splitPath (s : Str) : List Str :=
  (splitOnChar '/' s).filter (fun c => !c.isEmpty)

/-- Rust `PathBuf::join(rel)`: appends the components of `rel`, except
that an absolute `rel` (leading separator) replaces the base path. -/
def joinRel (base : List Str) (rel : Str) : List Str :=
  if leadsWith ('/' :: []) rel then splitPath rel else base ++ splitPath rel

/-- A filesystem canonicalization oracle: `Path::canonicalize` for the
ambient filesystem state, returning `none` where canonicalization fails
(e.g. the path does not exist). -/
abbrev CanonFn := List Str → Option (List Str)

/-- `Skill::resolve_path` (skills.rs lines 94-113), parameterized over
the canonicalization oracle.  Both failure messages are the two
`PathTraversal` errors of the source. -/
def resolve_path (canon : CanonFn) (skillPath : List Str) (relative_path : Str) :
    Except Str (List Str) :=
  if containsSub ('.' :: '.' :: []) relative_path then
    .error ("path traversal not allowed: ".data ++ relative_path)
  else
    let resolved := joinRel skillPath relative_path
    let canonical_resolved := (canon resolved).getD resolved
    let canonical_skill_dir := (canon skillPath).getD skillPath
    if !(leadsWithP canonical_skill_dir canonical_resolved) then
      .error ("path escapes skill directory: ".data ++ relative_path)
    else
      .ok canonical_resolved

/-- A name-keyed skill collection (the `HashMap<String, Arc<Skill>>` of
the source), as an association list without duplicate keys. -/
abbrev SkillMap := List (Str × Skill)

/-- `HashMap::insert`: bind `k` to `v`, replacing any previous binding. -/
def smInsert (k : Str) (v : Skill) (m : SkillMap) : SkillMap :=
  (k, v) :: m.filter (fun p => p.1 ≠ k)

/-- `HashMap::get`: the value bound to `k`, if any. -/
def smLookup (m : SkillMap) (k : Str) : Option Skill :=
  match m with
  | [] => none
  | (k', v) :: rest => if k = k' then some v else smLookup rest k

/-- The filesystem state visible to discovery, combining the async
`fs::Fs` capability (`is_dir`, `is_file`, `read_dir`, `load`) and the
sync `std::fs` calls (`exists`, `is_dir`, `read_dir`,
`read_to_string`).  `readDirFn` returns the finite entry sequence, each
entry itself a result, or an error when the directory cannot be
listed. -/
structure FsModel where
  isDirFn : List Str → Bool
  isFileFn : List Str → Bool
  pathExistsFn : List Str → Bool
  readDirFn : List Str → Except Unit (List (Except Unit (List Str)))
  loadFn : List Str → Except Unit Str

/-- `SKILL_FILE_NAME` (skills.rs line 18). -/
def SKILL_FILE_NAME : Str := "SKILL.md".data

/-- Rust `path.file_name().and_then(to_str).unwrap_or_default()`:
the final component, or the empty string. -/
def dirNameOf (path : List Str) : Str := (path.getLast?).getD []

/-- The loop body of the async `discover_skills` (skills.rs lines
162-212): an `Err` entry aborts the scan (the `entry?` of line 163);
otherwise the entry is processed and either skipped or inserted. -/
def asyncEntryStep (fs : FsModel) (dec : YamlDecoder) (acc : SkillMap)
    (entry : Except Unit (List Str)) : Except Unit SkillMap :=
  match entry with
  | .error e => .error e
  | .ok path =>
    if !fs.isDirFn path then .ok acc
    else
      let skill_file := path ++ [SKILL_FILE_NAME]
      if !fs.isFileFn skill_file then .ok acc
      else
        match fs.loadFn skill_file with
        | .error _ => .ok acc
        | .ok content =>
          match parse_skill_file dec content with
          | .error _ => .ok acc
          | .ok (metadata, body) =>
            if metadata.name ≠ dirNameOf path then .ok acc
            else .ok (smInsert metadata.name ⟨metadata, body, path⟩ acc)

/-- `discover_skills` (skills.rs lines 149-215): the async discovery.
Note that a listing failure, or a failed listing entry, is propagated
(`?`), unlike in the sync version. -/
def discover_skills (fs : FsModel) (dec : YamlDecoder) (skills_dir : List Str) :
    Except Unit SkillMap :=
  if !fs.isDirFn skills_dir then .ok []
  else
    match fs.readDirFn skills_dir with
    | .error e => .error e
    | .ok entries => entries.foldlM (asyncEntryStep fs dec) []

/-- The loop body of `discover_skills_sync` (skills.rs lines 234-283),
acting on the entries surviving `.flatten()`. -/
def syncEntryStep (fs : FsModel) (dec : YamlDecoder) (acc : SkillMap)
    (path : List Str) : SkillMap :=
  if !fs.isDirFn path then acc
  else
    let skill_file := path ++ [SKILL_FILE_NAME]
    if !fs.pathExistsFn skill_file then acc
    else
      match fs.loadFn skill_file with
      | .error _ => acc
      | .ok content =>
        match parse_skill_file dec content with
        | .error _ => acc
        | .ok (metadata, body) =>
          if metadata.name ≠ dirNameOf path then acc
          else smInsert metadata.name ⟨metadata, body, path⟩ acc

/-- `discover_skills_sync` (skills.rs lines 219-286): the sync
discovery.  A listing failure yields the empty collection; `.flatten()`
silently drops failed listing entries. -/
def discover_skills_sync (fs : FsModel) (dec : YamlDecoder) (skills_dir : List Str) :
    SkillMap :=
  if !(fs.pathExistsFn skills_dir && fs.isDirFn skills_dir) then []
  else
    match fs.readDirFn skills_dir with
    | .error _ => []
    | .ok entries => (entries.filterMap Except.toOption).foldl (syncEntryStep fs dec) []

/-- The merge loop of `discover_all_skills_sync` (skills.rs lines
309-311): insert every pair of the override collection into the
accumulated collection. -/
def mergeInto (base ov : SkillMap) : SkillMap :=
  ov.foldl (fun acc p => smInsert p.1 p.2 acc) base

/-- The layered merge of `discover_all_skills_sync` (skills.rs lines
301-315): start from the base collection and fold in the override
collections in order. -/
def mergeAll (base : SkillMap) (ovs : List SkillMap) : SkillMap :=
  ovs.foldl mergeInto base

/-- `worktree_skills_dir` (skills.rs lines 294-296). -/
def worktree_skills_dir (worktree_root : List Str) : List Str :=
  worktree_root ++ [".agents".data, "skills".data]

/-- `global_skills_dir` (skills.rs lines 289-291), with the external
`paths::config_dir()` as a parameter. -/
def global_skills_dir (config_dir : List Str) : List Str :=
  config_dir ++ ["skills".data]

/-- `discover_all_skills_sync` (skills.rs lines 301-315): global skills
first, then each worktree collection merged in order. -/
def discover_all_skills_sync (fs : FsModel) (dec : YamlDecoder) (config_dir : List Str)
    (worktree_roots : List (List Str)) : SkillMap :=
  mergeAll (discover_skills_sync fs dec (global_skills_dir config_dir))
    (worktree_roots.map (fun w => discover_skills_sync fs dec (worktree_skills_dir w)))

/-- One entry handed to the external template renderer. -/
structure SkillContext where
  name : Str
  description : Str
deriving DecidableEq, Repr

/-- The description truncation performed inside
`format_skills_for_prompt` (skills.rs lines 330-334): Rust compares and
slices by UTF-8 bytes (`len`, `&s[..77]`); `none` models the panic of
the byte-range slice when byte 77 is not a character boundary. -/
def format_description (d : Str) : Option Str :=
  if byteLenL d > 80 then (takeBytes 77 d).map (fun t => t ++ "...".data)
  else some d

/-- The truncation rule as the design states it: character counts and
character boundaries (first 77 characters plus the ellipsis when longer
than 80 characters).  Stated for comparison with `format_description`. -/
def format_description_spec (d : Str) : Str :=
  if d.length > 80 then d.take 77 ++ "...".data else d

/-- Comparison function of the sort in `format_skills_for_prompt`
(line 324): lexicographic order on names. -/
def strLe : Str → Str → Bool
  | [], _ => true
  | _ :: _, [] => false
  | a :: as, b :: bs => if a = b then strLe as bs else decide (a < b)

/-- Insertion into a name-sorted skill list. -/
def insertByName (s : Skill) : List Skill → List Skill
  | [] => [s]
  | t :: ts => if strLe s.metadata.name t.metadata.name then s :: t :: ts
      else t :: insertByName s ts

/-- The `sort_by` of `format_skills_for_prompt` (lines 323-324), as an
insertion sort on the collection values. -/
def sortByName (skills : List Skill) : List Skill :=
  skills.foldr insertByName []

/-- The context list built by `format_skills_for_prompt` (skills.rs
lines 318-336) before rendering: the collection values sorted by name,
each mapped to its `SkillContext`; `none` models the truncation panic.
Rendering itself is the external templating collaborator. -/
def format_skills_contexts (skills : SkillMap) : Option (List SkillContext) :=
  (sortByName (skills.map Prod.snd)).mapM
    (fun skill => (format_description skill.metadata.description).map
      (fun d => ⟨skill.metadata.name, d⟩))

/-- Option fallback: the first operand when present, the second
otherwise (used to state last-writer-wins lookups). -/
def optOr (a b : Option Skill) : Option Skill :=
  match a with
  | some v => some v
  | none => b

/-- A listing entry that discovery must merely skip: either its
definition file does not load, or the loaded content fails to parse, or
the declared name differs from the directory name.  (Stated as: any
successfully loaded and parsed content has a mismatching name.) -/
def badSkillEntry (fs : FsModel) (dec : YamlDecoder) (path : List Str) : Prop :=
  ∀ content, fs.loadFn (path ++ [SKILL_FILE_NAME]) = .ok content →
    ∀ m b, parse_skill_file dec content = .ok (m, b) → m.name ≠ dirNameOf path

/-- A decoder that always fails (used in concrete counterexamples where
no file content is ever decoded). -/
def nullDecoder : YamlDecoder := fun _ => .error []

/-- A filesystem state whose skills root exists and is a directory but
cannot be listed. -/
def cexFsUnlistable : FsModel :=
  { isDirFn := fun _ => true
    isFileFn := fun _ => false
    pathExistsFn := fun _ => true
    readDirFn := fun _ => .error ()
    loadFn := fun _ => .error () }

/-- A filesystem state whose skills root lists successfully but yields
one failed listing entry. -/
def cexFsBadEntry : FsModel :=
  { isDirFn := fun _ => true
    isFileFn := fun _ => false
    pathExistsFn := fun _ => true
    readDirFn := fun _ => .ok [.error ()]
    loadFn := fun _ => .error () }

/-- Demo skills root path. -/
def demoRoot : List Str := ["skills".data]

/-- Demo subdirectory whose declared name matches its directory name. -/
def alphaDir : List Str := demoRoot ++ ["alpha".data]

/-- Demo subdirectory whose declared name does not match its directory
name. -/
def gammaDir : List Str := demoRoot ++ ["gamma".data]

/-- Definition file of the matching demo skill. -/
def alphaFile : List Str := alphaDir ++ [SKILL_FILE_NAME]

/-- Definition file of the mismatching demo skill. -/
def gammaFile : List Str := gammaDir ++ [SKILL_FILE_NAME]

/-- Definition document declaring the name `alpha`. -/
def goodDoc : Str := "---\nname: alpha\ndescription: First skill\n---\nBody A".data

/-- Definition document declaring the name `beta` (mismatching the
directory `gamma` that holds it). -/
def mismatchDoc : Str := "---\nname: beta\ndescription: Second skill\n---\nBody B".data

/-- The metadata declared by `mismatchDoc`. -/
def mismatchMeta : SkillMetadata :=
  { name := "beta".data, description := "Second skill".data, license := none,
    compatibility := none, metadata := [], allowed_tools := none }

/-- Directory predicate of the demo filesystem. -/
def goodFsDirs (p : List Str) : Bool :=
  decide (p = demoRoot ∨ p = alphaDir ∨ p = gammaDir)

/-- File predicate of the demo filesystem. -/
def goodFsFiles (p : List Str) : Bool :=
  decide (p = alphaFile ∨ p = gammaFile)

/-- Loader of the demo filesystem. -/
def goodFsLoad (p : List Str) : Except Unit Str :=
  if p = alphaFile then .ok goodDoc
  else if p = gammaFile then .ok mismatchDoc
  else .error ()

/-- A coherent demo filesystem: a skills root with one valid skill
directory (`alpha`) and one directory whose declared name mismatches
(`gamma`). -/
def goodFs : FsModel :=
  { isDirFn := goodFsDirs
    isFileFn := goodFsFiles
    pathExistsFn := fun p => goodFsDirs p || goodFsFiles p
    readDirFn := fun p => if p = demoRoot then .ok [.ok alphaDir, .ok gammaDir] else .error ()
    loadFn := goodFsLoad }

/-- The skill discovered from the `alpha` demo directory. -/
def alphaSkill : Skill :=
  { metadata :=
      { name := "alpha".data, description := "First skill".data, license := none,
        compatibility := none, metadata := [], allowed_tools := none }
    body := "Body A".data
    path := alphaDir }

/-- A skill fixture with the given name and description, for the merge
examples. -/
def mkSkill (n d : Str) : Skill :=
  { metadata :=
      { name := n, description := d, license := none, compatibility := none,
        metadata := [], allowed_tools := none }
    body := []
    path := [n] }

/-- Base collection of the merge example: skills `a` and `b`. -/
def mergeBase : SkillMap :=
  [("a".data, mkSkill ("a".data) ("base a".data)),
   ("b".data, mkSkill ("b".data) ("base b".data))]

/-- First override collection of the merge example: a redefined `b` and
a new `c`. -/
def mergeOv1 : SkillMap :=
  [("b".data, mkSkill ("b".data) ("override b".data)),
   ("c".data, mkSkill ("c".data) ("override c".data))]

/-- Second override collection of the merge example: `c` redefined
again. -/
def mergeOv2 : SkillMap :=
  [("c".data, mkSkill ("c".data) ("second c".data))]

/-- Description used for the truncation counterexample: 50 two-byte
characters, i.e. 50 characters but 100 UTF-8 bytes. -/
def c4BadDescription : Str := List.replicate 50 'é'

/-- Metadata whose description has 513 two-byte characters: within the
1024-character limit but 1026 UTF-8 bytes. -/
def c5BadMetadata : SkillMetadata :=
  { name := "summarize".data, description := List.replicate 513 'é',
    license := none, compatibility := none, metadata := [], allowed_tools := none }

/-- A well-formed skill document whose declared description has 513
two-byte characters. -/
def c6BadDoc : Str :=
  "---\nname: summarize\ndescription: ".data ++ List.replicate 513 'é' ++
    "\n---\nBody".data

/-- A document with well-formed delimiters whose metadata decodes but
violates the name invariant. -/
def c7Doc : Str := "---\nname: Invalid_Name\ndescription: ok\n---\nBody".data

/-- The metadata declared by `c7Doc`. -/
def c7Metadata : SkillMetadata :=
  { name := "Invalid_Name".data, description := "ok".data, license := none,
    compatibility := none, metadata := [], allowed_tools := none }

/-- The key/name/directory agreement invariant of discovery results:
the collection key is the declared metadata name and is the final
component of the stored skill directory path. -/
def goodPair (p : Str × Skill) : Prop :=
  p.1 = p.2.metadata.name ∧ p.2.path.getLast? = some p.1

/-- C1: a relative path containing the two-dot token anywhere in the
string is rejected with the traversal error; otherwise resolution fails
with the traversal (escape) error unless the canonical form of the
joined path extends, componentwise, the canonical form of the skill
root, and on success the returned path extends the canonical root. -/
theorem resolve_path_spec (canon : CanonFn) (skillPath : List Str) (rel : Str) :
    (containsSub ('.' :: '.' :: []) rel = true →
      resolve_path canon skillPath rel =
        .error ("path traversal not allowed: ".data ++ rel))
    ∧ (containsSub ('.' :: '.' :: []) rel = false →
      resolve_path canon skillPath rel =
        (if leadsWithP ((canon skillPath).getD skillPath)
            ((canon (joinRel skillPath rel)).getD (joinRel skillPath rel)) then
          .ok ((canon (joinRel skillPath rel)).getD (joinRel skillPath rel))
        else .error ("path escapes skill directory: ".data ++ rel)))
    ∧ (∀ p, resolve_path canon skillPath rel = .ok p →
        leadsWithP ((canon skillPath).getD skillPath) p = true) := by
  refine ⟨fun h => ?_, fun h => ?_, fun p hp => ?_⟩
  · simp [resolve_path, h]
  · simp only [resolve_path, h]
    cases hl : leadsWithP ((canon skillPath).getD skillPath)
        ((canon (joinRel skillPath rel)).getD (joinRel skillPath rel)) <;>
      simp [hl]
  · simp only [resolve_path] at hp
    cases hc : containsSub ('.' :: '.' :: []) rel <;> rw [hc] at hp
    · cases hl : leadsWithP ((canon skillPath).getD skillPath)
          ((canon (joinRel skillPath rel)).getD (joinRel skillPath rel)) <;>
        rw [hl] at hp <;> simp at hp
      rw [← hp]
      exact hl
    · simp at hp

/-- C1 witness: concrete instances of both branches. -/
theorem resolve_path_spec_witness :
    containsSub ('.' :: '.' :: []) ("../etc".data) = true ∧
    resolve_path (fun _ => none) [("home".data)] ("../etc".data) =
      .error ("path traversal not allowed: ".data ++ "../etc".data) ∧
    containsSub ('.' :: '.' :: []) ("a/b".data) = false ∧
    resolve_path (fun _ => none) [("home".data)] ("a/b".data) =
      (if leadsWithP [("home".data)] ["home".data, "a".data, "b".data] then
        .ok ["home".data, "a".data, "b".data]
      else .error ("path escapes skill directory: ".data ++ "a/b".data)) :=
  ⟨by decide,
   (resolve_path_spec (fun _ => none) [("home".data)] ("../etc".data)).1 (by decide),
   by decide,
   (resolve_path_spec (fun _ => none) [("home".data)] ("a/b".data)).2.1 (by decide)⟩

/-- C9: without a two-dot token, when canonicalization of the joined
path fails, the uncanonicalized joined path is used, and resolution
succeeds whenever that joined path extends the canonical root — target
existence is not required. -/
theorem resolve_path_fallback (canon : CanonFn) (skillPath : List Str) (rel : Str)
    (h1 : containsSub ('.' :: '.' :: []) rel = false)
    (h2 : canon (joinRel skillPath rel) = none)
    (h3 : leadsWithP ((canon skillPath).getD skillPath) (joinRel skillPath rel) = true) :
    resolve_path canon skillPath rel = .ok (joinRel skillPath rel) := by
  simp [resolve_path, h1, h2, h3]

/-- C9 witness: with a canonicalizer that fails everywhere (nothing
exists), a plain relative path still resolves. -/
theorem resolve_path_fallback_witness :
    containsSub ('.' :: '.' :: []) ("scripts/run.sh".data) = false ∧
    resolve_path (fun _ => none) [("home".data), ("skills".data), ("t".data)]
        ("scripts/run.sh".data) =
      .ok [("home".data), ("skills".data), ("t".data), ("scripts".data), ("run.sh".data)] :=
  ⟨by decide,
   resolve_path_fallback (fun _ => none) [("home".data), ("skills".data), ("t".data)]
     ("scripts/run.sh".data) (by decide) rfl (by decide)⟩

/-- C4: the formatter truncation is measured and sliced in UTF-8 bytes,
not characters: a 50-character description of two-byte characters (100
bytes) is byte-truncated — the slice at byte 77 falls inside a
character and panics (modelled as `none`) — while the stated rule keeps
any description of at most 80 characters unchanged. -/
theorem format_description_counts_bytes :
    c4BadDescription.length = 50 ∧
    byteLenL c4BadDescription = 100 ∧
    format_description c4BadDescription = none ∧
    format_description_spec c4BadDescription = c4BadDescription :=
  ⟨by decide, by decide, by rfl, by rfl⟩

/-- C5: the validator measures the description in UTF-8 bytes, not
characters: a 513-character description of two-byte characters is
within the 1024-character limit yet rejected, because its 1026 bytes
exceed 1024. -/
theorem validate_counts_description_bytes :
    c5BadMetadata.description.length = 513 ∧
    c5BadMetadata.validate = .error (.descriptionTooLong 1026) :=
  ⟨by simp [c5BadMetadata], by rfl⟩

/-- C6: a well-formed document whose declared name matches the naming
pattern and whose description has 513 characters (at most 1024) fails
parse-then-validate, because the validator counts the 1026 UTF-8 bytes
of the description. -/
theorem parse_rejects_multibyte_description :
    (List.replicate 513 'é' : Str).length ≤ 1024 ∧
    parse_skill_file simpleYamlDecode c6BadDoc =
      .error (.validationError (.descriptionTooLong 1026)) :=
  ⟨by simp, by rfl⟩

/-- C7 counterexample: a document with well-formed delimiters whose
structured block decodes successfully (required fields present) is
nevertheless rejected by `parse_skill_file`, which invokes the
validator itself. -/
theorem parse_calls_validator_cex :
    simpleYamlDecode ("name: Invalid_Name\ndescription: ok".data) = .ok c7Metadata ∧
    parse_skill_file simpleYamlDecode c7Doc =
      .error (.validationError (.nameInvalidChars ("Invalid_Name".data))) :=
  ⟨by rfl, by rfl⟩

/-- C7 amended: the parser does invoke the validator as its final step:
with well-formed delimiters and a block the decoder accepts, parsing
returns the decoded metadata and trimmed body exactly when validation
passes, and the validation error otherwise. -/
theorem parse_validates_decoded_metadata (dec : YamlDecoder) (content : Str)
    (m : SkillMetadata) (e : Nat)
    (hstart : leadsWith ('-' :: '-' :: '-' :: []) (trimStartL content) = true)
    (hend : findSub ('-' :: '-' :: '-' :: []) ((trimStartL content).drop 3) = some e)
    (hdec : dec (trimL (((trimStartL content).drop 3).take e)) = .ok m) :
    parse_skill_file dec content =
      match m.validate with
      | .error er => .error (.validationError er)
      | .ok _ => .ok (m, trimStartL ((trimStartL content).drop (3 + e + 3))) := by
  simp [parse_skill_file, hstart, hend, hdec]

/-- C7 amended witness: the invalid-name document of the counterexample
instantiates the amended statement. -/
theorem parse_validates_decoded_metadata_witness :
    parse_skill_file simpleYamlDecode c7Doc =
      match c7Metadata.validate with
      | .error er => .error (.validationError er)
      | .ok _ => .ok (c7Metadata, trimStartL ((trimStartL c7Doc).drop (3 + 36 + 3))) :=
  parse_validates_decoded_metadata simpleYamlDecode c7Doc c7Metadata 36
    (by decide) (by decide) (by rfl)

theorem smLookup_filter_ne (m : SkillMap) (k k' : Str) (h : k ≠ k') :
    smLookup (m.filter (fun p => p.1 ≠ k')) k = smLookup m k := by
  induction m with
  | nil => rfl
  | cons a rest ih =>
    cases a with
    | mk a1 a2 =>
      simp only [List.filter_cons]
      by_cases ha : a1 = k'
      · have hd : (decide ((a1, a2).1 ≠ k')) = false := by simp [ha]
        rw [hd]
        have hk : ¬ k = a1 := fun hh => h (by rw [hh, ha])
        simp only [Bool.false_eq_true, if_false, ih, smLookup, if_neg hk]
      · have hd : (decide ((a1, a2).1 ≠ k')) = true := by simp [ha]
        rw [hd]
        simp only [if_true, smLookup, ih]

theorem smLookup_smInsert (m : SkillMap) (k k' : Str) (v : Skill) :
    smLookup (smInsert k' v m) k = if k = k' then some v else smLookup m k := by
  by_cases hk : k = k'
  · simp [smInsert, smLookup, hk]
  · simp only [smInsert, smLookup, if_neg hk]
    exact smLookup_filter_ne m k k' hk

theorem smLookup_none_of_not_mem (m : SkillMap) (k : Str)
    (h : k ∉ m.map Prod.fst) : smLookup m k = none := by
  induction m with
  | nil => rfl
  | cons a rest ih =>
    cases a with
    | mk a1 a2 =>
      simp only [List.map_cons, List.mem_cons] at h
      push_neg at h
      simp only [smLookup, if_neg h.1]
      exact ih h.2

theorem smLookup_mergeInto (base ov : SkillMap) (k : Str)
    (h : (ov.map Prod.fst).Nodup) :
    smLookup (mergeInto base ov) k = optOr (smLookup ov k) (smLookup base k) := by
  induction ov generalizing base with
  | nil => simp [mergeInto, smLookup, optOr]
  | cons a rest ih =>
    cases a with
    | mk k' v =>
      simp only [List.map_cons, List.nodup_cons] at h
      have step : mergeInto base ((k', v) :: rest) = mergeInto (smInsert k' v base) rest := by
        simp [mergeInto]
      rw [step, ih (smInsert k' v base) h.2]
      by_cases hk : k = k'
      · subst hk
        have hnone : smLookup rest k = none := smLookup_none_of_not_mem rest k h.1
        simp [smLookup, hnone, optOr, smLookup_smInsert]
      · have hins : smLookup (smInsert k' v base) k = smLookup base k := by
          rw [smLookup_smInsert, if_neg hk]
        have hcons : smLookup ((k', v) :: rest) k = smLookup rest k := by
          simp [smLookup, hk]
        rw [hins, hcons]

theorem optOr_assoc (a b c : Option Skill) :
    optOr (optOr a b) c = optOr a (optOr b c) := by
  cases a <;> simp [optOr]

theorem findSomeSkill_append (f : SkillMap → Option Skill) (l1 l2 : List SkillMap) :
    (l1 ++ l2).findSome? f = optOr (l1.findSome? f) (l2.findSome? f) := by
  induction l1 with
  | nil => simp [optOr]
  | cons a rest ih =>
    simp only [List.cons_append, List.findSome?_cons]
    cases f a <;> simp [optOr, ih]

/-- C8: layered merging is last-writer-wins — for every base collection
and ordered sequence of override collections (each with unique keys, as
collections have), the merged binding of a key is the binding of the
latest override containing it, or the base binding when none does; in
particular any override beats the base. -/
theorem smLookup_mergeAll (base : SkillMap) (ovs : List SkillMap) (k : Str)
    (h : ∀ ov ∈ ovs, (ov.map Prod.fst).Nodup) :
    smLookup (mergeAll base ovs) k =
      optOr (ovs.reverse.findSome? (fun ov => smLookup ov k)) (smLookup base k) := by
  induction ovs generalizing base with
  | nil => simp [mergeAll, optOr]
  | cons ov rest ih =>
    have hov : (ov.map Prod.fst).Nodup := h ov (by simp)
    have hrest : ∀ o ∈ rest, (o.map Prod.fst).Nodup := fun o ho => h o (by simp [ho])
    have step : mergeAll base (ov :: rest) = mergeAll (mergeInto base ov) rest := by
      simp [mergeAll]
    rw [step, ih (mergeInto base ov) hrest, smLookup_mergeInto base ov k hov]
    simp only [List.reverse_cons, findSomeSkill_append, List.findSome?_cons]
    cases rest.reverse.findSome? (fun o => smLookup o k) <;>
      cases smLookup ov k <;> simp [optOr]

/-- C8 witness: the design example — base with `a`, `b`; one override
redefining `b` and adding `c`; a second override redefining `c`.  The
merged `c` is the second override's and the base never wins a contested
key. -/
theorem smLookup_mergeAll_witness :
    smLookup (mergeAll mergeBase [mergeOv1, mergeOv2]) ("c".data) =
      optOr (([mergeOv1, mergeOv2].reverse).findSome? (fun ov => smLookup ov ("c".data)))
        (smLookup mergeBase ("c".data)) :=
  smLookup_mergeAll mergeBase [mergeOv1, mergeOv2] ("c".data) (by decide)

theorem asyncEntryStep_skip (fs : FsModel) (dec : YamlDecoder) (acc : SkillMap)
    (path : List Str) (hb : badSkillEntry fs dec path) :
    asyncEntryStep fs dec acc (.ok path) = .ok acc := by
  unfold badSkillEntry at hb
  unfold asyncEntryStep
  cases hd : fs.isDirFn path
  · simp [hd]
  · cases hl : fs.loadFn (path ++ [SKILL_FILE_NAME]) with
    | error e =>
      cases hf : fs.isFileFn (path ++ [SKILL_FILE_NAME]) <;> simp [hd, hf, hl]
    | ok content =>
      cases hp : parse_skill_file dec content with
      | error e =>
        cases hf : fs.isFileFn (path ++ [SKILL_FILE_NAME]) <;> simp [hd, hf, hl, hp]
      | ok r =>
        obtain ⟨m, b⟩ := r
        have hbb := hb content hl m b hp
        cases hf : fs.isFileFn (path ++ [SKILL_FILE_NAME]) <;>
          simp [hd, hf, hl, hp, hbb]

theorem syncEntryStep_skip (fs : FsModel) (dec : YamlDecoder) (acc : SkillMap)
    (path : List Str) (hb : badSkillEntry fs dec path) :
    syncEntryStep fs dec acc path = acc := by
  unfold badSkillEntry at hb
  unfold syncEntryStep
  cases hd : fs.isDirFn path
  · simp [hd]
  · cases hl : fs.loadFn (path ++ [SKILL_FILE_NAME]) with
    | error e =>
      cases hf : fs.pathExistsFn (path ++ [SKILL_FILE_NAME]) <;> simp [hd, hf, hl]
    | ok content =>
      cases hp : parse_skill_file dec content with
      | error e =>
        cases hf : fs.pathExistsFn (path ++ [SKILL_FILE_NAME]) <;> simp [hd, hf, hl, hp]
      | ok r =>
        obtain ⟨m, b⟩ := r
        have hbb := hb content hl m b hp
        cases hf : fs.pathExistsFn (path ++ [SKILL_FILE_NAME]) <;>
          simp [hd, hf, hl, hp, hbb]

theorem entrySteps_agree (fs : FsModel) (dec : YamlDecoder)
    (hfe : ∀ p, fs.isFileFn p = true → fs.pathExistsFn p = true)
    (hlf : ∀ p c, fs.loadFn p = .ok c → fs.isFileFn p = true)
    (acc : SkillMap) (path : List Str) :
    asyncEntryStep fs dec acc (.ok path) = .ok (syncEntryStep fs dec acc path) := by
  unfold asyncEntryStep syncEntryStep
  cases hd : fs.isDirFn path
  · simp [hd]
  · cases hf : fs.isFileFn (path ++ [SKILL_FILE_NAME])
    · cases he : fs.pathExistsFn (path ++ [SKILL_FILE_NAME])
      · simp [hd, hf, he]
      · cases hl : fs.loadFn (path ++ [SKILL_FILE_NAME]) with
        | error e => simp [hd, hf, he, hl]
        | ok c =>
          have := hlf _ _ hl
          rw [hf] at this
          exact absurd this (by simp)
    · have he : fs.pathExistsFn (path ++ [SKILL_FILE_NAME]) = true := hfe _ hf
      cases hl : fs.loadFn (path ++ [SKILL_FILE_NAME]) with
      | error e => simp [hd, hf, he, hl]
      | ok c =>
        cases hp : parse_skill_file dec c with
        | error e => simp [hd, hf, he, hl, hp]
        | ok r =>
          obtain ⟨m, b⟩ := r
          by_cases hn : m.name = dirNameOf path <;>
            simp [hd, hf, he, hl, hp, hn]

theorem foldl_skip_entry (fs : FsModel) (dec : YamlDecoder)
    (pre post : List (Except Unit (List Str))) (path : List Str)
    (hb : badSkillEntry fs dec path) :
    ((pre ++ Except.ok path :: post).filterMap Except.toOption).foldl
        (syncEntryStep fs dec) [] =
      ((pre ++ post).filterMap Except.toOption).foldl (syncEntryStep fs dec) [] := by
  simp only [List.filterMap_append, List.filterMap_cons, Except.toOption]
  rw [List.foldl_append, List.foldl_append, List.foldl_cons,
    syncEntryStep_skip fs dec _ path hb]

theorem foldlM_skip_entry (fs : FsModel) (dec : YamlDecoder)
    (pre post : List (Except Unit (List Str))) (path : List Str)
    (hb : badSkillEntry fs dec path) :
    (pre ++ Except.ok path :: post).foldlM (asyncEntryStep fs dec) ([] : SkillMap) =
      (pre ++ post).foldlM (asyncEntryStep fs dec) [] := by
  rw [List.foldlM_append, List.foldlM_append]
  cases hpre : pre.foldlM (asyncEntryStep fs dec) ([] : SkillMap) with
  | error e => rfl
  | ok acc =>
    show (asyncEntryStep fs dec acc (Except.ok path) >>= fun init =>
        List.foldlM (asyncEntryStep fs dec) init post) =
      List.foldlM (asyncEntryStep fs dec) acc post
    rw [asyncEntryStep_skip fs dec acc path hb]
    rfl

theorem sync_discovery_skip (fs : FsModel) (dec : YamlDecoder) (root : List Str)
    (pre post : List (Except Unit (List Str))) (path : List Str)
    (hg : (fs.pathExistsFn root && fs.isDirFn root) = true)
    (hls : fs.readDirFn root = .ok (pre ++ Except.ok path :: post))
    (hb : badSkillEntry fs dec path) :
    discover_skills_sync fs dec root =
      ((pre ++ post).filterMap Except.toOption).foldl (syncEntryStep fs dec) [] := by
  unfold discover_skills_sync
  simp only [hg, hls, Bool.not_true, Bool.false_eq_true, if_false]
  exact foldl_skip_entry fs dec pre post path hb

theorem async_discovery_skip (fs : FsModel) (dec : YamlDecoder) (root : List Str)
    (pre post : List (Except Unit (List Str))) (path : List Str)
    (hd : fs.isDirFn root = true)
    (hls : fs.readDirFn root = .ok (pre ++ Except.ok path :: post))
    (hb : badSkillEntry fs dec path) :
    discover_skills fs dec root = (pre ++ post).foldlM (asyncEntryStep fs dec) [] := by
  unfold discover_skills
  simp only [hd, hls, Bool.not_true, Bool.false_eq_true, if_false]
  exact foldlM_skip_entry fs dec pre post path hb

/-- C2 amended: a bad entry — unreadable definition file, parse or
validation failure, or name/directory mismatch — causes only that entry
to be skipped in both modes, all other entries contributing as if the
bad one were absent; but when the root cannot be listed, only the sync
mode returns an empty collection, while the async mode propagates the
listing error. -/
theorem discovery_error_containment (fs : FsModel) (dec : YamlDecoder) (root : List Str) :
    (∀ e, fs.readDirFn root = .error e → discover_skills_sync fs dec root = [])
    ∧ (∀ e, fs.isDirFn root = true → fs.readDirFn root = .error e →
        discover_skills fs dec root = .error e)
    ∧ (∀ pre path post, (fs.pathExistsFn root && fs.isDirFn root) = true →
        fs.readDirFn root = .ok (pre ++ Except.ok path :: post) →
        badSkillEntry fs dec path →
        discover_skills_sync fs dec root =
          ((pre ++ post).filterMap Except.toOption).foldl (syncEntryStep fs dec) [])
    ∧ (∀ pre path post, fs.isDirFn root = true →
        fs.readDirFn root = .ok (pre ++ Except.ok path :: post) →
        badSkillEntry fs dec path →
        discover_skills fs dec root = (pre ++ post).foldlM (asyncEntryStep fs dec) []) := by
  refine ⟨fun e he => ?_, fun e hd he => ?_, ?_, ?_⟩
  · unfold discover_skills_sync
    cases hg : (fs.pathExistsFn root && fs.isDirFn root) <;> simp [hg, he]
  · unfold discover_skills
    simp [hd, he]
  · exact fun pre path post hg hls hb => sync_discovery_skip fs dec root pre post path hg hls hb
  · exact fun pre path post hd hls hb => async_discovery_skip fs dec root pre post path hd hls hb

/-- C2 counterexample: on a filesystem whose skills root exists as a
directory but cannot be listed, the async discovery propagates the
listing error instead of returning the empty collection. -/
theorem discovery_error_containment_cex :
    discover_skills cexFsUnlistable nullDecoder demoRoot = .error () ∧
    discover_skills cexFsUnlistable nullDecoder demoRoot ≠ .ok [] := by
  constructor
  · rfl
  · intro h
    rw [show discover_skills cexFsUnlistable nullDecoder demoRoot = Except.error () from rfl] at h
    exact Except.noConfusion h

/-- C2 witness: on the demo filesystem the `gamma` directory (declared
name `beta`) is a bad entry; sync discovery equals the fold over the
remaining entries. -/
theorem discovery_error_containment_witness :
    discover_skills_sync goodFs simpleYamlDecode demoRoot =
      (([Except.ok alphaDir] ++ ([] : List (Except Unit (List Str)))).filterMap
        Except.toOption).foldl (syncEntryStep goodFs simpleYamlDecode) [] :=
  (discovery_error_containment goodFs simpleYamlDecode demoRoot).2.2.1
    [Except.ok alphaDir] gammaDir [] (by decide) rfl
    (by
      intro content hc m b hp
      have hc2 : (Except.ok mismatchDoc : Except Unit Str) = Except.ok content := hc
      cases hc2
      have hp2 : (Except.ok (mismatchMeta, ("Body B".data : Str)) :
          Except ParseError (SkillMetadata × Str)) = Except.ok (m, b) := hp
      injection hp2 with hp3
      injection hp3 with hm hbody
      subst hm
      decide)

theorem foldlM_all_ok (fs : FsModel) (dec : YamlDecoder)
    (hfe : ∀ p, fs.isFileFn p = true → fs.pathExistsFn p = true)
    (hlf : ∀ p c, fs.loadFn p = .ok c → fs.isFileFn p = true)
    (entries : List (Except Unit (List Str))) :
    ∀ acc, (∀ e ∈ entries, e.toOption.isSome = true) →
      entries.foldlM (asyncEntryStep fs dec) acc =
        .ok ((entries.filterMap Except.toOption).foldl (syncEntryStep fs dec) acc) := by
  induction entries with
  | nil => intro acc h; rfl
  | cons e rest ih =>
    intro acc h
    cases e with
    | error u =>
      have hcontra := h (Except.error u) (by simp)
      simp [Except.toOption] at hcontra
    | ok p =>
      have hrest : ∀ e ∈ rest, e.toOption.isSome = true := fun e he => h e (by simp [he])
      rw [List.foldlM_cons, entrySteps_agree fs dec hfe hlf acc p]
      show rest.foldlM (asyncEntryStep fs dec) (syncEntryStep fs dec acc p) = _
      rw [ih _ hrest]
      simp [Except.toOption, List.filterMap_cons]

/-- C3 amended: on filesystem states where the root listing succeeds
with no failed entry — and where the filesystem is coherent (directories
and files exist, only files load) — the async and sync discoveries
produce identical collections; they diverge exactly on listing-level
errors (which sync degrades to skips or an empty collection and async
propagates). -/
theorem discovery_modes_agree (fs : FsModel) (dec : YamlDecoder) (root : List Str)
    (hde : ∀ p, fs.isDirFn p = true → fs.pathExistsFn p = true)
    (hfe : ∀ p, fs.isFileFn p = true → fs.pathExistsFn p = true)
    (hlf : ∀ p c, fs.loadFn p = .ok c → fs.isFileFn p = true)
    (entries : List (Except Unit (List Str)))
    (hls : fs.readDirFn root = .ok entries)
    (hok : ∀ e ∈ entries, e.toOption.isSome = true) :
    discover_skills fs dec root = .ok (discover_skills_sync fs dec root) := by
  unfold discover_skills discover_skills_sync
  cases hd : fs.isDirFn root
  · simp [hd]
  · have he : fs.pathExistsFn root = true := hde root hd
    simp only [hd, he, hls, Bool.and_self, Bool.not_true, Bool.false_eq_true, if_false]
    exact foldlM_all_ok fs dec hfe hlf entries [] hok

/-- C3 counterexample: a filesystem state on which the two modes
disagree — the root lists successfully but yields one failed entry,
which the sync mode skips and the async mode propagates. -/
theorem discovery_modes_agree_cex :
    discover_skills cexFsBadEntry nullDecoder demoRoot ≠
      .ok (discover_skills_sync cexFsBadEntry nullDecoder demoRoot) := by
  intro h
  rw [show discover_skills cexFsBadEntry nullDecoder demoRoot = Except.error () from rfl] at h
  exact Except.noConfusion h

/-- C3 amended witness: on the coherent demo filesystem both modes
produce the same collection. -/
theorem discovery_modes_agree_witness :
    discover_skills goodFs simpleYamlDecode demoRoot =
      .ok (discover_skills_sync goodFs simpleYamlDecode demoRoot) :=
  discovery_modes_agree goodFs simpleYamlDecode demoRoot
    (fun p h => by simp only [goodFs]; rw [show goodFs.isDirFn p = goodFsDirs p from rfl] at h; simp [h])
    (fun p h => by simp only [goodFs]; rw [show goodFs.isFileFn p = goodFsFiles p from rfl] at h; simp [h])
    (fun p c h => by
      have h2 : goodFsLoad p = .ok c := h
      unfold goodFsLoad at h2
      by_cases h3 : p = alphaFile
      · subst h3; decide
      · rw [if_neg h3] at h2
        by_cases h4 : p = gammaFile
        · subst h4; decide
        · rw [if_neg h4] at h2
          exact Except.noConfusion h2)
    [Except.ok alphaDir, Except.ok gammaDir] rfl (by decide)

theorem parse_ok_validate (dec : YamlDecoder) (content : Str) (m : SkillMetadata) (b : Str)
    (h : parse_skill_file dec content = .ok (m, b)) : m.validate = .ok () := by
  simp only [parse_skill_file] at h
  split at h
  · exact Except.noConfusion h
  split at h
  · exact Except.noConfusion h
  split at h
  · exact Except.noConfusion h
  split at h
  · exact Except.noConfusion h
  rename_i val hval
  injection h with h2
  injection h2 with hm hb
  subst hm
  cases val
  exact hval

theorem validate_ok_name_nonempty (m : SkillMetadata) (h : m.validate = .ok ()) :
    m.name ≠ [] := by
  intro hn
  unfold SkillMetadata.validate at h
  rw [hn] at h
  simp at h

theorem getLast_of_dirName (path : List Str) (n : Str)
    (h : n = dirNameOf path) (hn : n ≠ []) : path.getLast? = some n := by
  unfold dirNameOf at h
  cases hl : path.getLast? with
  | none =>
    rw [hl] at h
    simp at h
    exact absurd h hn
  | some x =>
    rw [hl] at h
    simp at h
    rw [h]

theorem goodPair_insert_skill (m : SkillMetadata) (b : Str) (path : List Str)
    (hv : m.validate = .ok ()) (hn : m.name = dirNameOf path) :
    goodPair (m.name, ⟨m, b, path⟩) :=
  ⟨rfl, getLast_of_dirName path m.name hn (validate_ok_name_nonempty m hv)⟩

theorem goodAcc_smInsert (acc : SkillMap) (k : Str) (v : Skill)
    (hacc : ∀ p ∈ acc, goodPair p) (hk : goodPair (k, v)) :
    ∀ p ∈ smInsert k v acc, goodPair p := by
  intro p hp
  simp only [smInsert, List.mem_cons] at hp
  rcases hp with h | h
  · rw [h]; exact hk
  · exact hacc p (List.mem_of_mem_filter h)

theorem syncEntryStep_cases (fs : FsModel) (dec : YamlDecoder) (acc : SkillMap)
    (path : List Str) :
    syncEntryStep fs dec acc path = acc ∨
    ∃ m b, syncEntryStep fs dec acc path = smInsert m.name ⟨m, b, path⟩ acc ∧
      m.validate = .ok () ∧ m.name = dirNameOf path := by
  unfold syncEntryStep
  cases hd : fs.isDirFn path
  · left; simp [hd]
  · cases hf : fs.pathExistsFn (path ++ [SKILL_FILE_NAME])
    · left; simp [hd, hf]
    · cases hl : fs.loadFn (path ++ [SKILL_FILE_NAME]) with
      | error e => left; simp [hd, hf, hl]
      | ok content =>
        cases hp : parse_skill_file dec content with
        | error e => left; simp [hd, hf, hl, hp]
        | ok r =>
          obtain ⟨m, b⟩ := r
          by_cases hn : m.name = dirNameOf path
          · right
            exact ⟨m, b, by simp [hd, hf, hl, hp, hn],
              parse_ok_validate dec content m b hp, hn⟩
          · left; simp [hd, hf, hl, hp, hn]

theorem asyncEntryStep_cases (fs : FsModel) (dec : YamlDecoder) (acc : SkillMap)
    (path : List Str) :
    asyncEntryStep fs dec acc (.ok path) = .ok acc ∨
    ∃ m b, asyncEntryStep fs dec acc (.ok path) =
        .ok (smInsert m.name ⟨m, b, path⟩ acc) ∧
      m.validate = .ok () ∧ m.name = dirNameOf path := by
  unfold asyncEntryStep
  cases hd : fs.isDirFn path
  · left; simp [hd]
  · cases hf : fs.isFileFn (path ++ [SKILL_FILE_NAME])
    · left; simp [hd, hf]
    · cases hl : fs.loadFn (path ++ [SKILL_FILE_NAME]) with
      | error e => left; simp [hd, hf, hl]
      | ok content =>
        cases hp : parse_skill_file dec content with
        | error e => left; simp [hd, hf, hl, hp]
        | ok r =>
          obtain ⟨m, b⟩ := r
          by_cases hn : m.name = dirNameOf path
          · right
            exact ⟨m, b, by simp [hd, hf, hl, hp, hn],
              parse_ok_validate dec content m b hp, hn⟩
          · left; simp [hd, hf, hl, hp, hn]

theorem syncEntryStep_good (fs : FsModel) (dec : YamlDecoder) (acc : SkillMap)
    (path : List Str) (hacc : ∀ p ∈ acc, goodPair p) :
    ∀ p ∈ syncEntryStep fs dec acc path, goodPair p := by
  rcases syncEntryStep_cases fs dec acc path with h | ⟨m, b, h, hv, hn⟩
  · rw [h]; exact hacc
  · rw [h]
    exact goodAcc_smInsert acc m.name ⟨m, b, path⟩ hacc (goodPair_insert_skill m b path hv hn)

theorem syncFold_good (fs : FsModel) (dec : YamlDecoder) (paths : List (List Str)) :
    ∀ acc, (∀ p ∈ acc, goodPair p) →
      ∀ p ∈ paths.foldl (syncEntryStep fs dec) acc, goodPair p := by
  induction paths with
  | nil =>
    intro acc hacc
    simp only [List.foldl_nil]
    exact hacc
  | cons q rest ih =>
    intro acc hacc
    rw [List.foldl_cons]
    exact ih _ (syncEntryStep_good fs dec acc q hacc)

theorem asyncFold_good (fs : FsModel) (dec : YamlDecoder)
    (entries : List (Except Unit (List Str))) :
    ∀ acc res, (∀ p ∈ acc, goodPair p) →
      entries.foldlM (asyncEntryStep fs dec) acc = .ok res → ∀ p ∈ res, goodPair p := by
  induction entries with
  | nil =>
    intro acc res hacc h
    have h2 : (Except.ok acc : Except Unit SkillMap) = .ok res := h
    injection h2 with h3
    subst h3
    exact hacc
  | cons e rest ih =>
    intro acc res hacc h
    rw [List.foldlM_cons] at h
    cases e with
    | error u =>
      have h2 : (Except.error u : Except Unit SkillMap) = .ok res := h
      exact Except.noConfusion h2
    | ok q =>
      rcases asyncEntryStep_cases fs dec acc q with hs | ⟨m, b, hs, hv, hn⟩
      · rw [hs] at h
        exact ih acc res hacc h
      · rw [hs] at h
        exact ih _ res
          (goodAcc_smInsert acc m.name ⟨m, b, q⟩ hacc (goodPair_insert_skill m b q hv hn)) h

theorem mem_of_smLookup (m : SkillMap) (k : Str) (v : Skill)
    (h : smLookup m k = some v) : (k, v) ∈ m := by
  induction m with
  | nil => exact Option.noConfusion h
  | cons a rest ih =>
    cases a with
    | mk k' v' =>
      by_cases hk : k = k'
      · subst hk
        simp only [smLookup, if_pos rfl] at h
        injection h with h2
        subst h2
        exact List.mem_cons_self _ _
      · simp only [smLookup, if_neg hk] at h
        exact List.mem_cons_of_mem _ (ih h)

/-- C10: every collection either discovery mode returns satisfies the
agreement invariant — each binding's key is the skill's declared
metadata name and is the final component of the skill's stored
directory path — and a subdirectory whose declared name differs from
its directory name contributes no entry, the scan continuing over the
remaining entries as if it were absent. -/
theorem discovery_key_invariant (fs : FsModel) (dec : YamlDecoder) (root : List Str) :
    (∀ res, discover_skills fs dec root = .ok res →
      ∀ k skill, smLookup res k = some skill →
        k = skill.metadata.name ∧ skill.path.getLast? = some k)
    ∧ (∀ k skill, smLookup (discover_skills_sync fs dec root) k = some skill →
        k = skill.metadata.name ∧ skill.path.getLast? = some k)
    ∧ (∀ pre path post, (fs.pathExistsFn root && fs.isDirFn root) = true →
        fs.readDirFn root = .ok (pre ++ Except.ok path :: post) →
        (∀ content, fs.loadFn (path ++ [SKILL_FILE_NAME]) = .ok content →
          ∀ m b, parse_skill_file dec content = .ok (m, b) → m.name ≠ dirNameOf path) →
        discover_skills_sync fs dec root =
          ((pre ++ post).filterMap Except.toOption).foldl (syncEntryStep fs dec) [])
    ∧ (∀ pre path post, fs.isDirFn root = true →
        fs.readDirFn root = .ok (pre ++ Except.ok path :: post) →
        (∀ content, fs.loadFn (path ++ [SKILL_FILE_NAME]) = .ok content →
          ∀ m b, parse_skill_file dec content = .ok (m, b) → m.name ≠ dirNameOf path) →
        discover_skills fs dec root = (pre ++ post).foldlM (asyncEntryStep fs dec) []) := by
  refine ⟨?_, ?_, ?_, ?_⟩
  · intro res hres k skill hlk
    unfold discover_skills at hres
    split at hres
    · injection hres with h2
      subst h2
      exact Option.noConfusion hlk
    · split at hres
      · exact Except.noConfusion hres
      · have hgood := asyncFold_good fs dec _ [] res
          (fun p hp => absurd hp (List.not_mem_nil p)) hres
        exact hgood (k, skill) (mem_of_smLookup res k skill hlk)
  · intro k skill hlk
    unfold discover_skills_sync at hlk
    split at hlk
    · exact Option.noConfusion hlk
    · split at hlk
      · exact Option.noConfusion hlk
      · rename_i entries hentries
        have hgood := syncFold_good fs dec (entries.filterMap Except.toOption) []
          (fun p hp => absurd hp (List.not_mem_nil p))
        exact hgood (k, skill) (mem_of_smLookup _ k skill hlk)
  · intro pre path post hg hls hmis
    exact sync_discovery_skip fs dec root pre post path hg hls hmis
  · intro pre path post hd hls hmis
    exact async_discovery_skip fs dec root pre post path hd hls hmis

/-- C10 witness: on the demo filesystem, the discovered `alpha` entry
satisfies the invariant (the mismatching `gamma` directory contributes
nothing). -/
theorem discovery_key_invariant_witness :
    ("alpha".data : Str) = alphaSkill.metadata.name ∧
      alphaSkill.path.getLast? = some ("alpha".data) :=
  (discovery_key_invariant goodFs simpleYamlDecode demoRoot).2.1
    ("alpha".data) alphaSkill (by rfl)
